import Mathlib

/-!
Verification of the cell-state subsystem of the "D3: World of Bits" game
(a Leaflet-based token collection/crafting game).

The development shallowly embeds the final TypeScript implementation
(the D3.c stage: flyweight/memento `modifiedCells` store, persistence codec,
victory/restart logic).  Conventions of the embedding:

* JavaScript numbers (latitudes, longitudes, token values, scores) are
  modelled as rationals `ℚ`; the finitely many arithmetic operations the
  claims exercise stay well inside the range where IEEE doubles behave
  exactly like rational arithmetic.
* The ambient random source (`crypto.getRandomValues` on a `Uint32Array`,
  with a `Math.random()` fallback) is modelled as an explicit stream
  `bits : ℕ → ℕ` of 32-bit draws together with a cursor `idx`; each call of
  `randomFast` consumes one draw `bits idx` and yields `bits idx / 0xffffffff`.
* The JavaScript `Map<string, number | null>` keyed by `"i,j"` strings is
  modelled as an insertion-ordered association list `CellStore`;
  `Map.get/has/set` become `storeGet/storeHas/storeSet` (set updates the
  first — and by the map invariant only — occurrence in place, or appends).
* DOM / Leaflet layer bookkeeping (rectangles, labels, tooltips, the status
  panel) is rendering-surface state, out of the core model; the victory
  overlay being shown is retained as the boolean `won`, and `localStorage`
  writes are modelled by the pure codec `serializeState`/`loadGameState`
  operating on a JSON value tree `JVal` (JSON text round-trips this tree
  losslessly for the finite numbers and plain strings produced here).
-/

/-- Game constants of the source (`TILE_DEGREES`, `RENDER_RADIUS`,
`INTERACT_RANGE`, `TOKEN_SPAWN_PROBABILITY`, `TARGET_MAX_TOKEN`). -/
def TILE_DEGREES : ℚ := 1 / 10000

/-- Render radius of the visible window (cells). -/
def RENDER_RADIUS : ℕ := 12

/-- Interaction radius (cells). -/
def INTERACT_RANGE : ℤ := 3

/-- Spawn probability used by the generator. -/
def TOKEN_SPAWN_PROBABILITY : ℚ := 12 / 100

/-- Victory threshold for the held token. -/
def TARGET_MAX_TOKEN : ℚ := 32

/-- Movement mode flag (`"gps" | "buttons"`). -/
inductive MoveMode where
  | gps
  | buttons
deriving DecidableEq, Repr

/-- String key of a cell, mirroring `cellKey(i, j) = `${i},${j}``. -/
def cellKey (i j : ℤ) : String := toString i ++ "," ++ toString j

/-- The modified-cells store: a `Map<string, number | null>` as an
insertion-ordered association list. -/
abbrev CellStore := List (String × Option ℚ)

/-- `Map.get`: value of the first entry with the given key. -/
def storeGet (m : CellStore) (k : String) : Option (Option ℚ) :=
  (m.find? fun p => p.1 == k).map Prod.snd

/-- `Map.has`. -/
def storeHas (m : CellStore) (k : String) : Bool :=
  (storeGet m k).isSome

/-- `Map.set`: replace the value of the existing entry in place (JS maps
keep insertion order on update), else append a new entry. -/
def storeSet : CellStore → String → Option ℚ → CellStore
  | [], k, v => [(k, v)]
  | (k1, v1) :: rest, k, v =>
      if k1 = k then (k1, v) :: rest else (k1, v1) :: storeSet rest k v

/-- The core game state: the mutable globals of the source
(`PLAYER_START_LATLNG`, `playerLatLng`, `playerPoints`, `heldToken`,
`modifiedCells`, `movementMode`, victory-overlay visibility) together with
the explicit random stream. -/
structure Sess where
  start : ℚ × ℚ
  player : ℚ × ℚ
  points : ℚ
  held : Option ℚ
  modifiedCells : CellStore
  movementMode : MoveMode
  won : Bool
  bits : ℕ → ℕ
  idx : ℕ

/-- `randomFast()`: one 32-bit draw scaled by `0xffffffff`. -/
def randomFast (bits : ℕ → ℕ) (n : ℕ) : ℚ :=
  (bits n : ℚ) / 4294967295

/-- `latLngToCell`: floor-divide the delta from the session origin by the
tile size on each axis. -/
def latLngToCell (start pos : ℚ × ℚ) : ℤ × ℤ :=
  (⌊(pos.1 - start.1) / TILE_DEGREES⌋, ⌊(pos.2 - start.2) / TILE_DEGREES⌋)

/-- `canInteract(i, j)`: Chebyshev distance from the player's cell is at
most `INTERACT_RANGE` on each axis. -/
def canInteract (i j : ℤ) (s : Sess) : Bool :=
  let p := latLngToCell s.start s.player
  decide (|i - p.1| ≤ INTERACT_RANGE ∧ |j - p.2| ≤ INTERACT_RANGE)

/-- `getCellToken(i, j)`: the flyweight/memento read.  A decided cell
returns its stored content verbatim; an undecided cell draws the spawn
roll (and, only on a spawn, the value roll), stores the generated content
and returns it.  `2 ** (1 + Math.floor(r * 5))` is integer
exponentiation with a nonnegative exponent, written here with `zpow`. -/
def getCellToken (i j : ℤ) (s : Sess) : Option ℚ × Sess :=
  let key := cellKey i j
  match storeGet s.modifiedCells key with
  | some v => (v, s)
  | none =>
      if randomFast s.bits s.idx < TOKEN_SPAWN_PROBABILITY then
        let token : ℚ := 2 ^ (1 + ⌊randomFast s.bits (s.idx + 1) * 5⌋)
        (some token,
          { s with
              modifiedCells := storeSet s.modifiedCells key (some token),
              idx := s.idx + 2 })
      else
        (none,
          { s with
              modifiedCells := storeSet s.modifiedCells key none,
              idx := s.idx + 1 })

/-- `saveCell(i, j, value)`: the memento write. -/
def saveCell (i j : ℤ) (v : Option ℚ) (s : Sess) : Sess :=
  { s with modifiedCells := storeSet s.modifiedCells (cellKey i j) v }

/-- `checkVictory()`: a held token at or above `TARGET_MAX_TOKEN` shows the
victory overlay. -/
def checkVictory (s : Sess) : Sess :=
  match s.held with
  | some v => if TARGET_MAX_TOKEN ≤ v then { s with won := true } else s
  | none => s

/-- State effect of `renderCell(i, j)`: materialize the cell through
`getCellToken` (the Leaflet rectangle/label are rendering surface). -/
def renderCell (i j : ℤ) (s : Sess) : Sess :=
  (getCellToken i j s).2

/-- The coordinates visited by the nested loop of `renderVisibleCells`
(`di` outer then `dj`, each from `-r` to `r` around the player cell `p`). -/
def windowList (p : ℤ × ℤ) (r : ℕ) : List (ℤ × ℤ) :=
  (List.range (2 * r + 1)).flatMap fun (a : ℕ) =>
    (List.range (2 * r + 1)).map fun (b : ℕ) =>
      (p.1 - (r : ℤ) + (a : ℤ), p.2 - (r : ℤ) + (b : ℤ))

/-- `renderVisibleCells()`: drop all cell layers (rendering surface) and
re-render every cell of the window around the player's current cell; on
the core state this is a fold of `renderCell` over the window. -/
def renderVisibleCells (s : Sess) : Sess :=
  (windowList (latLngToCell s.start s.player) RENDER_RADIUS).foldl
    (fun t c => renderCell c.1 c.2 t) s

/-- The inventory-and-crafting if/else ladder of the click handler, acting
on the state `s1` left by the `getCellToken` read whose result was
`newToken`: pick up (`held←v, cell←null, points++`), place
(`cell←held, held←null`), craft (`cell←null, held←2v, points+=2`), or — on
a value mismatch — nothing. -/
def craftTransition (i j : ℤ) (newToken : Option ℚ) (s1 : Sess) : Sess :=
  match s1.held with
  | none =>
      match newToken with
      | some v =>
          { saveCell i j none s1 with
              held := some v, points := s1.points + 1 }
      | none => s1
  | some h =>
      match newToken with
      | none => { saveCell i j (some h) s1 with held := none }
      | some v =>
          if v = h then
            { saveCell i j none s1 with
                held := some (h * 2), points := s1.points + 2 }
          else s1

/-- The rectangle click handler of `renderCell` (the pick-up / place /
craft interaction): rejected outright when out of range, otherwise the
`getCellToken` read, the crafting-rules transition, `checkVictory`, and
the re-render of the clicked cell. -/
def clickCell (i j : ℤ) (s : Sess) : Sess :=
  if canInteract i j s then
    let r := getCellToken i j s
    renderCell i j (checkVictory (craftTransition i j r.1 r.2))
  else s

/-- `restartGame()`: hide the overlay, zero the score, empty the hand,
clear the store, re-anchor the origin to the player's current position,
recenter the player there and re-render the window. -/
def restartGame (s : Sess) : Sess :=
  let s1 : Sess :=
    { s with
        won := false, points := 0, held := none, modifiedCells := [],
        start := s.player }
  let s2 : Sess := { s1 with player := s1.start }
  renderVisibleCells s2

/-- A movement event (a GPS watch update or a `moveend` after a keyboard
pan): the player position changes and the visible window is recomputed. -/
def moveTo (pos : ℚ × ℚ) (s : Sess) : Sess :=
  renderVisibleCells { s with player := pos }

/-- `toggleMovementMode()`: flip the movement mode flag. -/
def toggleMovementMode (s : Sess) : Sess :=
  { s with
      movementMode :=
        match s.movementMode with
        | .gps => .buttons
        | .buttons => .gps }

/-- A fresh session anchored at `pos` (new game, no restored save):
zero score, empty hand, empty store, GPS mode, overlay hidden. -/
def freshSess (pos : ℚ × ℚ) (bits : ℕ → ℕ) : Sess :=
  { start := pos, player := pos, points := 0, held := none,
    modifiedCells := [], movementMode := .gps, won := false,
    bits := bits, idx := 0 }

/-- One event-loop operation of the running game. -/
inductive Step : Sess → Sess → Prop where
  | move (pos : ℚ × ℚ) (s : Sess) : Step s (moveTo pos s)
  | click (i j : ℤ) (s : Sess) : Step s (clickCell i j s)
  | toggle (s : Sess) : Step s (toggleMovementMode s)
  | restart (s : Sess) : Step s (restartGame s)

/-- States reachable from a fresh session. -/
inductive Reachable : Sess → Prop where
  | init (pos : ℚ × ℚ) (bits : ℕ → ℕ) : Reachable (freshSess pos bits)
  | step {s t : Sess} : Reachable s → Step s t → Reachable t

/-- Movement-only executions (window recomputations with no interaction),
used to state memento durability across eviction and re-entry. -/
inductive MoveOnly : Sess → Sess → Prop where
  | refl (s : Sess) : MoveOnly s s
  | step (pos : ℚ × ℚ) {s t : Sess} :
      MoveOnly s t → MoveOnly s (moveTo pos t)

/-- JSON value tree (the image of `JSON.parse`); numbers as rationals. -/
inductive JVal where
  | jnull
  | jbool (b : Bool)
  | jnum (q : ℚ)
  | jstr (s : String)
  | jarr (xs : List JVal)
  | jobj (fields : List (String × JVal))

/-- Property access `obj[k]` on a parsed object. -/
def jGet : JVal → String → Option JVal
  | .jobj fs, k => (fs.find? fun p => p.1 == k).map Prod.snd
  | _, _ => none

/-- JavaScript truthiness of a JSON value. -/
def jTruthy : JVal → Bool
  | .jnull => false
  | .jbool b => b
  | .jnum q => decide (q ≠ 0)
  | .jstr s => decide (s ≠ "")
  | .jarr _ => true
  | .jobj _ => true

/-- `{ lat, lng }` of a position. -/
def serializeLatLng (p : ℚ × ℚ) : JVal :=
  .jobj [("lat", .jnum p.1), ("lng", .jnum p.2)]

/-- A `number | null` cell value / held token. -/
def serializeTok : Option ℚ → JVal
  | none => .jnull
  | some v => .jnum v

/-- `modifiedCells` as the array of `[key, value]` pairs pushed in
iteration (= insertion) order. -/
def serializeCells (m : CellStore) : JVal :=
  .jarr (m.map fun kv => .jarr [.jstr kv.1, serializeTok kv.2])

/-- The movement-mode string. -/
def serializeMode : MoveMode → JVal
  | .gps => .jstr "gps"
  | .buttons => .jstr "buttons"

/-- `serializeState()`: the object written to `localStorage`. -/
def serializeState (s : Sess) : JVal :=
  .jobj
    [("PLAYER_START_LATLNG", serializeLatLng s.start),
     ("playerLatLng", serializeLatLng s.player),
     ("playerPoints", .jnum s.points),
     ("heldToken", serializeTok s.held),
     ("modifiedCells", serializeCells s.modifiedCells),
     ("movementMode", serializeMode s.movementMode)]

/-- `leaflet.latLng(o.lat, o.lng)` on a restored `{lat, lng}` object;
anything but two numbers makes Leaflet throw (caught: load fails). -/
def loadLatLng (j : JVal) : Option (ℚ × ℚ) :=
  match jGet j "lat", jGet j "lng" with
  | some (.jnum a), some (.jnum b) => some (a, b)
  | _, _ => none

/-- One loop iteration of the `modifiedCells` restore:
`for (const [k, v] of obj.modifiedCells) modifiedCells.set(k, v)`.
An entry that is not a `[string, number | null]` pair throws on
destructuring / is outside the store's value type (caught: load fails). -/
def loadCellEntry (m : CellStore) (e : JVal) : Option CellStore :=
  match e with
  | .jarr [.jstr k, .jnull] => some (storeSet m k none)
  | .jarr [.jstr k, .jnum q] => some (storeSet m k (some q))
  | _ => none

/-- The full `modifiedCells` restore loop, starting from the cleared map. -/
def loadCells : List JVal → CellStore → Option CellStore
  | [], m => some m
  | e :: es, m =>
      match loadCellEntry m e with
      | some m1 => loadCells es m1
      | none => none

/-- `loadGameState()`: restore the saved object over the previous session
state (`prev`), with the source's fallbacks: a missing/falsy
`PLAYER_START_LATLNG` keeps the current origin, a missing/falsy
`playerLatLng` clones the restored origin, a non-number `playerPoints`
becomes `0`, a non-number `heldToken` becomes `null`, a non-array
`modifiedCells` leaves the store cleared, and any `movementMode` other
than `"buttons"` becomes `"gps"`.  A thrown exception (malformed data)
makes the whole load fail (`none`), degrading to a fresh session. -/
def loadGameState (prev : Sess) (j : JVal) : Option Sess :=
  let startR : Option (ℚ × ℚ) :=
    match jGet j "PLAYER_START_LATLNG" with
    | some o => if jTruthy o then loadLatLng o else some prev.start
    | none => some prev.start
  match startR with
  | none => none
  | some st =>
      let playerR : Option (ℚ × ℚ) :=
        match jGet j "playerLatLng" with
        | some o => if jTruthy o then loadLatLng o else some st
        | none => some st
      match playerR with
      | none => none
      | some pl =>
          let pts : ℚ :=
            match jGet j "playerPoints" with
            | some (.jnum q) => q
            | _ => 0
          let hd : Option ℚ :=
            match jGet j "heldToken" with
            | some (.jnum q) => some q
            | _ => none
          let cellsR : Option CellStore :=
            match jGet j "modifiedCells" with
            | some (.jarr es) => loadCells es []
            | _ => some []
          match cellsR with
          | none => none
          | some cs =>
              let mode : MoveMode :=
                match jGet j "movementMode" with
                | some (.jstr m) => if m = "buttons" then .buttons else .gps
                | _ => .gps
              some
                { prev with
                    start := st, player := pl, points := pts, held := hd,
                    modifiedCells := cs, movementMode := mode }

/-- A legal token value: a power of two that is at least `2` (the
generator produces `2 ^ (1 + k)` with `k ≥ 0`, and crafting doubles). -/
def IsTok (v : ℚ) : Prop := ∃ n : ℕ, 1 ≤ n ∧ v = 2 ^ n

/-- The token-value invariant of a session: the held token and every
non-null value stored in the cell store is a power of two `≥ 2`. -/
def SessOk (s : Sess) : Prop :=
  (∀ v : ℚ, s.held = some v → IsTok v) ∧
  ∀ (k : String) (v : ℚ),
    storeGet s.modifiedCells k = some (some v) → IsTok v

/-! ### Store lemmas -/

theorem storeGet_nil (k : String) : storeGet [] k = none := rfl

theorem storeGet_cons (k1 : String) (v1 : Option ℚ) (rest : CellStore)
    (k : String) :
    storeGet ((k1, v1) :: rest) k = if k1 = k then some v1 else storeGet rest k := by
  by_cases h : k1 = k
  · simp [storeGet, List.find?, h]
  · have hb : (k1 == k) = false := by simp [h]
    simp [storeGet, List.find?, h, hb]

theorem storeHas_cons (k1 : String) (v1 : Option ℚ) (rest : CellStore)
    (k : String) :
    storeHas ((k1, v1) :: rest) k = if k1 = k then true else storeHas rest k := by
  by_cases h : k1 = k <;> simp [storeHas, storeGet_cons, h]

theorem storeGet_set (m : CellStore) (k k' : String) (v : Option ℚ) :
    storeGet (storeSet m k v) k' = if k' = k then some v else storeGet m k' := by
  induction m with
  | nil =>
      by_cases h : k' = k
      · subst h
        simp [storeSet, storeGet_cons]
      · have h2 : ¬ k = k' := fun hh => h hh.symm
        simp [storeSet, storeGet_cons, storeGet, h, h2]
  | cons p rest ih =>
      obtain ⟨k1, v1⟩ := p
      by_cases h1 : k1 = k
      · subst h1
        by_cases h2 : k' = k1
        · subst h2
          simp [storeSet, storeGet_cons]
        · have h3 : ¬ k1 = k' := fun hh => h2 hh.symm
          simp [storeSet, storeGet_cons, h2, h3]
      · by_cases h2 : k1 = k'
        · subst h2
          have h3 : ¬ k1 = k := h1
          simp [storeSet, storeGet_cons, h1, fun hh : k1 = k => h1 hh]
        · simp [storeSet, storeGet_cons, h1, h2, ih]

theorem storeGet_set_self (m : CellStore) (k : String) (v : Option ℚ) :
    storeGet (storeSet m k v) k = some v := by
  simp [storeGet_set]

theorem storeHas_false_iff (m : CellStore) (k : String) :
    storeHas m k = false ↔ k ∉ m.map Prod.fst := by
  induction m with
  | nil => simp [storeHas, storeGet]
  | cons p rest ih =>
      obtain ⟨k1, v1⟩ := p
      by_cases h : k1 = k
      · subst h
        simp [storeHas_cons]
      · have h2 : ¬ k = k1 := fun hh => h hh.symm
        simp [storeHas_cons, h, h2, ih]

theorem storeSet_keys (m : CellStore) (k : String) (v : Option ℚ) :
    (storeSet m k v).map Prod.fst =
      if storeHas m k then m.map Prod.fst else m.map Prod.fst ++ [k] := by
  induction m with
  | nil => simp [storeSet, storeHas, storeGet]
  | cons p rest ih =>
      obtain ⟨k1, v1⟩ := p
      by_cases h1 : k1 = k
      · subst h1
        simp [storeSet, storeHas_cons]
      · rw [storeHas_cons]
        simp only [storeSet, if_neg h1, List.map_cons, ih]
        by_cases h2 : storeHas rest k <;> simp [h1, h2]

theorem nodup_storeSet (m : CellStore) (k : String) (v : Option ℚ)
    (h : (m.map Prod.fst).Nodup) : ((storeSet m k v).map Prod.fst).Nodup := by
  rw [storeSet_keys]
  by_cases hk : storeHas m k
  · simpa [hk] using h
  · have hk0 : storeHas m k = false := by simpa using hk
    have hk' : k ∉ m.map Prod.fst := (storeHas_false_iff m k).mp hk0
    simp [hk0, List.nodup_append, h, hk']

/-! ### getCellToken lemmas -/

theorem getCellToken_decided {i j : ℤ} {s : Sess} {x : Option ℚ}
    (h : storeGet s.modifiedCells (cellKey i j) = some x) :
    getCellToken i j s = (x, s) := by
  simp [getCellToken, h]

theorem getCellToken_decides (i j : ℤ) (s : Sess) :
    storeGet (getCellToken i j s).2.modifiedCells (cellKey i j) =
      some (getCellToken i j s).1 := by
  cases hx : storeGet s.modifiedCells (cellKey i j) with
  | some x =>
      rw [getCellToken_decided hx]
      exact hx
  | none =>
      simp only [getCellToken, hx]
      split <;> simp [storeGet_set_self]

theorem storeGet_getCellToken {k : String} {x : Option ℚ} (i j : ℤ) (s : Sess)
    (h : storeGet s.modifiedCells k = some x) :
    storeGet (getCellToken i j s).2.modifiedCells k = some x := by
  cases hx : storeGet s.modifiedCells (cellKey i j) with
  | some y =>
      rw [getCellToken_decided hx]
      exact h
  | none =>
      have hne : k ≠ cellKey i j := by
        intro he
        rw [he, hx] at h
        exact Option.noConfusion h
      simp only [getCellToken, hx]
      split <;> simp [storeGet_set, hne, h]

theorem getCellToken_core (i j : ℤ) (s : Sess) :
    (getCellToken i j s).2.start = s.start ∧
    (getCellToken i j s).2.player = s.player ∧
    (getCellToken i j s).2.points = s.points ∧
    (getCellToken i j s).2.held = s.held ∧
    (getCellToken i j s).2.movementMode = s.movementMode ∧
    (getCellToken i j s).2.won = s.won ∧
    (getCellToken i j s).2.bits = s.bits := by
  simp only [getCellToken]
  split
  · exact ⟨rfl, rfl, rfl, rfl, rfl, rfl, rfl⟩
  · split <;> exact ⟨rfl, rfl, rfl, rfl, rfl, rfl, rfl⟩

theorem nodup_getCellToken (i j : ℤ) (s : Sess)
    (h : (s.modifiedCells.map Prod.fst).Nodup) :
    ((getCellToken i j s).2.modifiedCells.map Prod.fst).Nodup := by
  simp only [getCellToken]
  split
  · exact h
  · split <;> exact nodup_storeSet _ _ _ h

theorem storeHas_getCellToken {k : String} (i j : ℤ) (s : Sess)
    (h : storeHas s.modifiedCells k = true) :
    storeHas (getCellToken i j s).2.modifiedCells k = true := by
  have ⟨x, hx⟩ : ∃ x, storeGet s.modifiedCells k = some x := by
    cases hg : storeGet s.modifiedCells k with
    | none => simp [storeHas, hg] at h
    | some x => exact ⟨x, rfl⟩
  simp [storeHas, storeGet_getCellToken i j s hx]

/-! ### Fold / window preservation -/

theorem foldl_renderCell_preserve (Q : Sess → Prop)
    (hQ : ∀ i j t, Q t → Q (renderCell i j t)) :
    ∀ (l : List (ℤ × ℤ)) (s : Sess), Q s →
      Q (l.foldl (fun t c => renderCell c.1 c.2 t) s)
  | [], _, h => h
  | c :: cs, s, h =>
      foldl_renderCell_preserve Q hQ cs (renderCell c.1 c.2 s) (hQ c.1 c.2 s h)

theorem renderVisibleCells_preserve (Q : Sess → Prop)
    (hQ : ∀ i j t, Q t → Q (renderCell i j t)) (s : Sess) (h : Q s) :
    Q (renderVisibleCells s) :=
  foldl_renderCell_preserve Q hQ _ s h

theorem storeGet_renderVisibleCells {k : String} {x : Option ℚ} (s : Sess)
    (h : storeGet s.modifiedCells k = some x) :
    storeGet (renderVisibleCells s).modifiedCells k = some x :=
  renderVisibleCells_preserve (fun t => storeGet t.modifiedCells k = some x)
    (fun i j t ht => storeGet_getCellToken i j t ht) s h

theorem storeGet_moveTo {k : String} {x : Option ℚ} (pos : ℚ × ℚ) (s : Sess)
    (h : storeGet s.modifiedCells k = some x) :
    storeGet (moveTo pos s).modifiedCells k = some x :=
  storeGet_renderVisibleCells _ h

theorem storeGet_moveOnly {k : String} {x : Option ℚ} {s t : Sess}
    (hmv : MoveOnly s t) :
    storeGet s.modifiedCells k = some x → storeGet t.modifiedCells k = some x := by
  induction hmv with
  | refl => exact id
  | step pos hmv ih => exact fun h => storeGet_moveTo _ _ (ih h)

/-! ### checkVictory / craftTransition / render field lemmas -/

theorem checkVictory_fields (s : Sess) :
    (checkVictory s).modifiedCells = s.modifiedCells ∧
    (checkVictory s).held = s.held ∧
    (checkVictory s).points = s.points ∧
    (checkVictory s).start = s.start ∧
    (checkVictory s).player = s.player ∧
    (checkVictory s).movementMode = s.movementMode ∧
    (checkVictory s).bits = s.bits := by
  simp only [checkVictory]
  split
  · split <;> exact ⟨rfl, rfl, rfl, rfl, rfl, rfl, rfl⟩
  · exact ⟨rfl, rfl, rfl, rfl, rfl, rfl, rfl⟩

theorem storeHas_storeSet {k : String} (m : CellStore) (k' : String)
    (v : Option ℚ) (h : storeHas m k = true) :
    storeHas (storeSet m k' v) k = true := by
  by_cases he : k = k'
  · simp [storeHas, storeGet_set, he]
  · simpa [storeHas, storeGet_set, he] using h

theorem storeHas_craftTransition {k : String} (i j : ℤ) (nt : Option ℚ)
    (s1 : Sess) (h : storeHas s1.modifiedCells k = true) :
    storeHas (craftTransition i j nt s1).modifiedCells k = true := by
  simp only [craftTransition]
  split
  · split
    · exact storeHas_storeSet _ _ _ h
    · exact h
  · split
    · exact storeHas_storeSet _ _ _ h
    · split
      · exact storeHas_storeSet _ _ _ h
      · exact h

theorem storeHas_clickCell {k : String} (i j : ℤ) (s : Sess)
    (h : storeHas s.modifiedCells k = true) :
    storeHas (clickCell i j s).modifiedCells k = true := by
  simp only [clickCell]
  split
  · have h1 : storeHas (getCellToken i j s).2.modifiedCells k = true :=
      storeHas_getCellToken i j s h
    have h2 : storeHas
        (craftTransition i j (getCellToken i j s).1
          (getCellToken i j s).2).modifiedCells k = true :=
      storeHas_craftTransition _ _ _ _ h1
    have h3 : storeHas
        (checkVictory (craftTransition i j (getCellToken i j s).1
          (getCellToken i j s).2)).modifiedCells k = true := by
      rw [(checkVictory_fields _).1]
      exact h2
    exact storeHas_getCellToken i j _ h3
  · exact h

theorem storeHas_renderVisibleCells {k : String} (s : Sess)
    (h : storeHas s.modifiedCells k = true) :
    storeHas (renderVisibleCells s).modifiedCells k = true :=
  renderVisibleCells_preserve (fun t => storeHas t.modifiedCells k = true)
    (fun i j t ht => storeHas_getCellToken i j t ht) s h

theorem renderVisibleCells_fields (s : Sess) :
    (renderVisibleCells s).start = s.start ∧
    (renderVisibleCells s).player = s.player ∧
    (renderVisibleCells s).points = s.points ∧
    (renderVisibleCells s).held = s.held ∧
    (renderVisibleCells s).movementMode = s.movementMode ∧
    (renderVisibleCells s).won = s.won ∧
    (renderVisibleCells s).bits = s.bits := by
  refine renderVisibleCells_preserve
    (fun t => t.start = s.start ∧ t.player = s.player ∧ t.points = s.points ∧
      t.held = s.held ∧ t.movementMode = s.movementMode ∧ t.won = s.won ∧
      t.bits = s.bits) ?_ s ⟨rfl, rfl, rfl, rfl, rfl, rfl, rfl⟩
  intro i j t ht
  have hc := getCellToken_core i j t
  unfold renderCell
  exact ⟨hc.1.trans ht.1, hc.2.1.trans ht.2.1, hc.2.2.1.trans ht.2.2.1,
    hc.2.2.2.1.trans ht.2.2.2.1, hc.2.2.2.2.1.trans ht.2.2.2.2.1,
    hc.2.2.2.2.2.1.trans ht.2.2.2.2.2.1, hc.2.2.2.2.2.2.trans ht.2.2.2.2.2.2⟩

/-! ### Window characterization -/

theorem mem_windowList {p : ℤ × ℤ} {r : ℕ} {c : ℤ × ℤ} :
    c ∈ windowList p r ↔ |c.1 - p.1| ≤ (r : ℤ) ∧ |c.2 - p.2| ≤ (r : ℤ) := by
  constructor
  · intro hc
    rw [windowList, List.mem_flatMap] at hc
    obtain ⟨a, ha, hc⟩ := hc
    rw [List.mem_map] at hc
    obtain ⟨b, hb, hc⟩ := hc
    rw [List.mem_range] at ha hb
    subst hc
    rw [abs_le, abs_le]
    constructor <;> constructor <;> simp <;> omega
  · rintro ⟨h1, h2⟩
    rw [abs_le] at h1 h2
    rw [windowList, List.mem_flatMap]
    refine ⟨(c.1 - p.1 + r).toNat, ?_, ?_⟩
    · rw [List.mem_range]
      omega
    · rw [List.mem_map]
      refine ⟨(c.2 - p.2 + r).toNat, ?_, ?_⟩
      · rw [List.mem_range]
        omega
      · have e1 : p.1 - (r : ℤ) + ((c.1 - p.1 + r).toNat : ℤ) = c.1 := by omega
        have e2 : p.2 - (r : ℤ) + ((c.2 - p.2 + r).toNat : ℤ) = c.2 := by omega
        rw [e1, e2]

theorem windowList_toFinset (p : ℤ × ℤ) (r : ℕ) :
    (windowList p r).toFinset =
      Finset.Icc (p.1 - (r : ℤ)) (p.1 + (r : ℤ)) ×ˢ
        Finset.Icc (p.2 - (r : ℤ)) (p.2 + (r : ℤ)) := by
  ext c
  simp only [List.mem_toFinset, mem_windowList, Finset.mem_product,
    Finset.mem_Icc, abs_le]
  omega

theorem windowList_card (p : ℤ × ℤ) (r : ℕ) :
    (windowList p r).toFinset.card = (2 * r + 1) ^ 2 := by
  rw [windowList_toFinset, Finset.card_product, Int.card_Icc, Int.card_Icc]
  have h1 : p.1 + (r : ℤ) + 1 - (p.1 - (r : ℤ)) = ((2 * r + 1 : ℕ) : ℤ) := by
    push_cast
    ring
  have h2 : p.2 + (r : ℤ) + 1 - (p.2 - (r : ℤ)) = ((2 * r + 1 : ℕ) : ℤ) := by
    push_cast
    ring
  rw [h1, h2, Int.toNat_natCast, pow_two]

/-- C7: the visible window computed by `renderVisibleCells` around player
cell `p` with radius `r` is exactly the set of the `(2r+1)^2` coordinates
at Chebyshev distance at most `r` from `p`: membership in the rendered
window is equivalent to `|i - p.i| ≤ r ∧ |j - p.j| ≤ r`, and the window
has exactly `(2r+1)^2` distinct coordinates. -/
theorem claim7_window_correctness (p : ℤ × ℤ) (r : ℕ) :
    (∀ c : ℤ × ℤ, c ∈ windowList p r ↔
        |c.1 - p.1| ≤ (r : ℤ) ∧ |c.2 - p.2| ≤ (r : ℤ)) ∧
      (windowList p r).toFinset.card = (2 * r + 1) ^ 2 :=
  ⟨fun _ => mem_windowList, windowList_card p r⟩

/-- C2: after `saveCell i j v` (the memento write), any number of
movement events — each of which recomputes and re-renders the visible
window — leaves the stored content intact: a subsequent `getCellToken`
read returns exactly `v`, also when the cell left the window and came
back. -/
theorem claim2_memento_durability (i j : ℤ) (v : Option ℚ) (s t : Sess)
    (h : MoveOnly (saveCell i j v s) t) :
    (getCellToken i j t).1 = v := by
  have hg : storeGet t.modifiedCells (cellKey i j) = some v :=
    storeGet_moveOnly h (by simp [saveCell, storeGet_set_self])
  rw [getCellToken_decided hg]

theorem claim2_witness :
    (getCellToken 0 0
      (saveCell 0 0 (some 4) (freshSess (0, 0) fun _ => 0))).1 = some 4 :=
  claim2_memento_durability 0 0 (some 4) _ _ (MoveOnly.refl _)

/-- C3: no event-loop operation removes an entry from the cell store
except the full-store clear done by `restartGame`; in particular every
movement event (the visible-window recomputation) and every click
preserves every present key. -/
theorem claim3_no_eviction (s t : Sess) (h : Step s t) :
    (∀ k, storeHas s.modifiedCells k = true →
        storeHas t.modifiedCells k = true) ∨
      t = restartGame s := by
  cases h with
  | move pos s =>
      exact Or.inl fun k hk => storeHas_renderVisibleCells _ hk
  | click i j s =>
      exact Or.inl fun k hk => storeHas_clickCell i j s hk
  | toggle s =>
      exact Or.inl fun k hk => hk
  | restart s => exact Or.inr rfl

theorem claim3_witness :
    (∀ k, storeHas (saveCell 2 3 (some 4) (freshSess (0, 0) fun _ => 0)).modifiedCells k = true →
        storeHas (clickCell 0 0 (saveCell 2 3 (some 4) (freshSess (0, 0) fun _ => 0))).modifiedCells k = true) ∨
      clickCell 0 0 (saveCell 2 3 (some 4) (freshSess (0, 0) fun _ => 0)) =
        restartGame (saveCell 2 3 (some 4) (freshSess (0, 0) fun _ => 0)) :=
  claim3_no_eviction _ _ (Step.click 0 0 _)

/-- C6: `restartGame` from any state zeroes the score, empties the hand,
hides the victory overlay, re-anchors the origin to the player's current
position and recenters the player there, and clears the cell store to
empty before the standard lazy re-materialization of the new visible
window (the same fold `renderVisibleCells` performs on any movement). -/
theorem claim6_restart (s : Sess) :
    (restartGame s).points = 0 ∧ (restartGame s).held = none ∧
    (restartGame s).start = s.player ∧ (restartGame s).player = s.player ∧
    (restartGame s).won = false ∧
    restartGame s =
      renderVisibleCells
        { s with
            won := false, points := 0, held := none, modifiedCells := [],
            start := s.player, player := s.player } := by
  have hf := renderVisibleCells_fields
    ({ s with
        won := false, points := 0, held := none, modifiedCells := [],
        start := s.player, player := s.player } : Sess)
  refine ⟨?_, ?_, ?_, ?_, ?_, rfl⟩
  · exact hf.2.2.1
  · exact hf.2.2.2.1
  · exact hf.1
  · exact hf.2.1
  · exact hf.2.2.2.2.2.1

/-! ### Click handler on a decided cell -/

theorem renderCell_decided {i j : ℤ} {t : Sess} {x : Option ℚ}
    (h : storeGet t.modifiedCells (cellKey i j) = some x) :
    renderCell i j t = t := by
  unfold renderCell
  rw [getCellToken_decided h]

theorem craftTransition_decided (i j : ℤ) (content : Option ℚ) (s : Sess)
    (hc : storeGet s.modifiedCells (cellKey i j) = some content) :
    ∃ x, storeGet (craftTransition i j content s).modifiedCells
      (cellKey i j) = some x := by
  cases hh : s.held with
  | none =>
      cases content with
      | none =>
          refine ⟨none, ?_⟩
          simp only [craftTransition, hh]
          exact hc
      | some v =>
          refine ⟨none, ?_⟩
          simp only [craftTransition, hh]
          simp [saveCell, storeGet_set_self]
  | some h =>
      cases content with
      | none =>
          refine ⟨some h, ?_⟩
          simp only [craftTransition, hh]
          simp [saveCell, storeGet_set_self]
      | some v =>
          by_cases hv : v = h
          · refine ⟨none, ?_⟩
            simp only [craftTransition, hh]
            simp [hv, saveCell, storeGet_set_self]
          · refine ⟨some v, ?_⟩
            simp only [craftTransition, hh]
            simp only [if_neg hv]
            exact hc

theorem clickCell_decided {i j : ℤ} {s : Sess} {content : Option ℚ}
    (hin : canInteract i j s = true)
    (hc : storeGet s.modifiedCells (cellKey i j) = some content) :
    clickCell i j s = checkVictory (craftTransition i j content s) := by
  obtain ⟨x, hx⟩ := craftTransition_decided i j content s hc
  have hcv : storeGet
      (checkVictory (craftTransition i j content s)).modifiedCells
      (cellKey i j) = some x := by
    rw [(checkVictory_fields _).1]
    exact hx
  simp only [clickCell, hin, if_true, getCellToken_decided hc]
  exact renderCell_decided hcv

/-- C4: for an in-range interaction on a decided cell: with an empty hand
and a cell holding `v`, afterwards the hand holds `v`, the cell is empty
and the score rose by exactly `1`; with the hand holding `v` and an empty
cell, afterwards the cell holds `v`, the hand is empty and the score is
unchanged; with the hand holding `v` and the cell holding an equal `v`,
afterwards the cell is empty, the hand holds the doubled `v * 2` and the
score rose by exactly `2`. -/
theorem claim4_interaction_transitions (i j : ℤ) (s : Sess) (v : ℚ)
    (hin : canInteract i j s = true) :
    (s.held = none → storeGet s.modifiedCells (cellKey i j) = some (some v) →
      (clickCell i j s).held = some v ∧
      storeGet (clickCell i j s).modifiedCells (cellKey i j) = some none ∧
      (clickCell i j s).points = s.points + 1) ∧
    (s.held = some v → storeGet s.modifiedCells (cellKey i j) = some none →
      storeGet (clickCell i j s).modifiedCells (cellKey i j) = some (some v) ∧
      (clickCell i j s).held = none ∧
      (clickCell i j s).points = s.points) ∧
    (s.held = some v → storeGet s.modifiedCells (cellKey i j) = some (some v) →
      storeGet (clickCell i j s).modifiedCells (cellKey i j) = some none ∧
      (clickCell i j s).held = some (v * 2) ∧
      (clickCell i j s).points = s.points + 2) := by
  refine ⟨?_, ?_, ?_⟩
  · intro hh hc
    rw [clickCell_decided hin hc]
    have hct : craftTransition i j (some v) s =
        { saveCell i j none s with held := some v, points := s.points + 1 } := by
      simp only [craftTransition, hh]
    rw [hct]
    have hcf := checkVictory_fields
      ({ saveCell i j none s with held := some v, points := s.points + 1 } : Sess)
    refine ⟨hcf.2.1, ?_, hcf.2.2.1⟩
    rw [hcf.1]
    simp [saveCell, storeGet_set_self]
  · intro hh hc
    rw [clickCell_decided hin hc]
    have hct : craftTransition i j none s =
        { saveCell i j (some v) s with held := none } := by
      simp only [craftTransition, hh]
    rw [hct]
    have hcf := checkVictory_fields
      ({ saveCell i j (some v) s with held := none } : Sess)
    refine ⟨?_, hcf.2.1, hcf.2.2.1⟩
    rw [hcf.1]
    simp [saveCell, storeGet_set_self]
  · intro hh hc
    rw [clickCell_decided hin hc]
    have hct : craftTransition i j (some v) s =
        { saveCell i j none s with
            held := some (v * 2), points := s.points + 2 } := by
      simp [craftTransition, hh]
    rw [hct]
    have hcf := checkVictory_fields
      ({ saveCell i j none s with
          held := some (v * 2), points := s.points + 2 } : Sess)
    refine ⟨?_, hcf.2.1, hcf.2.2.1⟩
    rw [hcf.1]
    simp [saveCell, storeGet_set_self]

theorem claim4_witness :
    (clickCell 0 0
        { start := (0, 0), player := (0, 0), points := 0, held := none,
          modifiedCells := [("0,0", some 2)], movementMode := .gps,
          won := false, bits := fun _ => 0, idx := 0 }).held = some 2 ∧
    storeGet (clickCell 0 0
        { start := (0, 0), player := (0, 0), points := 0, held := none,
          modifiedCells := [("0,0", some 2)], movementMode := .gps,
          won := false, bits := fun _ => 0, idx := 0 }).modifiedCells
      (cellKey 0 0) = some none ∧
    (clickCell 0 0
        { start := (0, 0), player := (0, 0), points := 0, held := none,
          modifiedCells := [("0,0", some 2)], movementMode := .gps,
          won := false, bits := fun _ => 0, idx := 0 }).points = 0 + 1 :=
  (claim4_interaction_transitions 0 0 _ 2
      (by simp [canInteract, latLngToCell, INTERACT_RANGE, TILE_DEGREES])).1
    rfl (by decide)

/-- C8: a rejected interaction mutates no game state: an out-of-range
click returns with the state completely unchanged, and an in-range click
with a held value different from the cell's non-empty value leaves the
held token, the cell's content and the score all unchanged. -/
theorem claim8_rejected_no_mutation (i j : ℤ) (s : Sess) :
    (canInteract i j s = false → clickCell i j s = s) ∧
    (∀ v w : ℚ, canInteract i j s = true → s.held = some v →
      storeGet s.modifiedCells (cellKey i j) = some (some w) → v ≠ w →
      (clickCell i j s).held = some v ∧
      (clickCell i j s).points = s.points ∧
      storeGet (clickCell i j s).modifiedCells (cellKey i j) =
        some (some w)) := by
  constructor
  · intro hout
    simp [clickCell, hout]
  · intro v w hin hh hc hne
    rw [clickCell_decided hin hc]
    have hct : craftTransition i j (some w) s = s := by
      simp only [craftTransition, hh]
      simp only [if_neg (fun he : w = v => hne he.symm)]
    rw [hct]
    have hcf := checkVictory_fields s
    exact ⟨hcf.2.1.trans hh, hcf.2.2.1, by rw [hcf.1]; exact hc⟩

theorem claim8_witness :
    (canInteract 9 9
        { start := (0, 0), player := (0, 0), points := 7, held := some 16,
          modifiedCells := [("0,0", some 4)], movementMode := .gps,
          won := false, bits := fun _ => 0, idx := 0 } = false →
      clickCell 9 9
        { start := (0, 0), player := (0, 0), points := 7, held := some 16,
          modifiedCells := [("0,0", some 4)], movementMode := .gps,
          won := false, bits := fun _ => 0, idx := 0 } =
        { start := (0, 0), player := (0, 0), points := 7, held := some 16,
          modifiedCells := [("0,0", some 4)], movementMode := .gps,
          won := false, bits := fun _ => 0, idx := 0 }) ∧
    (∀ v w : ℚ, canInteract 9 9
        { start := (0, 0), player := (0, 0), points := 7, held := some 16,
          modifiedCells := [("0,0", some 4)], movementMode := .gps,
          won := false, bits := fun _ => 0, idx := 0 } = true →
      ({ start := (0, 0), player := (0, 0), points := 7, held := some 16,
          modifiedCells := [("0,0", some 4)], movementMode := .gps,
          won := false, bits := fun _ => 0, idx := 0 } : Sess).held = some v →
      storeGet [("0,0", some 4)] (cellKey 9 9) = some (some w) → v ≠ w →
      (clickCell 9 9
          { start := (0, 0), player := (0, 0), points := 7, held := some 16,
            modifiedCells := [("0,0", some 4)], movementMode := .gps,
            won := false, bits := fun _ => 0, idx := 0 }).held = some v ∧
      (clickCell 9 9
          { start := (0, 0), player := (0, 0), points := 7, held := some 16,
            modifiedCells := [("0,0", some 4)], movementMode := .gps,
            won := false, bits := fun _ => 0, idx := 0 }).points = 7 ∧
      storeGet (clickCell 9 9
          { start := (0, 0), player := (0, 0), points := 7, held := some 16,
            modifiedCells := [("0,0", some 4)], movementMode := .gps,
            won := false, bits := fun _ => 0, idx := 0 }).modifiedCells
        (cellKey 9 9) = some (some w)) :=
  claim8_rejected_no_mutation 9 9
    { start := (0, 0), player := (0, 0), points := 7, held := some 16,
      modifiedCells := [("0,0", some 4)], movementMode := .gps,
      won := false, bits := fun _ => 0, idx := 0 }

/-! ### Generation: dependence on the random stream -/

/-- C1 counterexample: generating the never-written coordinate `(0, 0)`
twice from fresh stores with the same session constants yields `some 2`
under one draw stream (all-zero draws) and `none` under another
(all-`0xffffffff` draws): `getCellToken` is built on `randomFast`
(`crypto.getRandomValues` / `Math.random`), so the generated default
content is not a function of the coordinate alone. -/
theorem claim1_counterexample :
    (getCellToken 0 0 (freshSess (0, 0) fun _ => 0)).1 ≠
      (getCellToken 0 0 (freshSess (0, 0) fun _ => 4294967295)).1 := by
  have hl : (getCellToken 0 0 (freshSess (0, 0) fun _ => 0)).1 = some 2 := by
    norm_num [getCellToken, freshSess, storeGet, randomFast,
      TOKEN_SPAWN_PROBABILITY]
  have hr : (getCellToken 0 0 (freshSess (0, 0) fun _ => 4294967295)).1 =
      none := by
    norm_num [getCellToken, freshSess, storeGet, randomFast,
      TOKEN_SPAWN_PROBABILITY]
  rw [hl, hr]
  exact fun h => Option.noConfusion h

/-- C1 (amended): generation of an undecided cell is a pure function of
the coordinate together with the two pseudo-random draws the generator
consumes (the spawn roll at the stream cursor and the value roll right
after it) and the fixed constants: two sessions in which the cell is
undecided and whose streams agree at their cursors generate identical
content for it.  Identical content for fresh stores is guaranteed only
with equal draws, not with equal constants alone. -/
theorem claim1_amended_generation_pure (i j : ℤ) (s1 s2 : Sess)
    (h1 : storeGet s1.modifiedCells (cellKey i j) = none)
    (h2 : storeGet s2.modifiedCells (cellKey i j) = none)
    (hb1 : s1.bits s1.idx = s2.bits s2.idx)
    (hb2 : s1.bits (s1.idx + 1) = s2.bits (s2.idx + 1)) :
    (getCellToken i j s1).1 = (getCellToken i j s2).1 := by
  simp only [getCellToken, h1, h2, randomFast, hb1, hb2]
  split <;> rfl

theorem claim1_amended_witness :
    (getCellToken 0 0 (freshSess (0, 0) fun _ => 0)).1 =
      (getCellToken 0 0 (freshSess (1, 1) fun _ => 0)).1 :=
  claim1_amended_generation_pure 0 0 _ _ rfl rfl rfl rfl

/-- C9: the won state is reachable by a single pick-up.  Under the draw
stream whose spawn roll is `0` and whose value roll is
`3435973836 / 4294967295 = 4/5`, the freshly generated cell `(0, 0)`
holds `2 ^ (1 + ⌊4/5 * 5⌋) = 32`, which meets the victory threshold; the
pick-up click then puts `32` in hand, scores `1` point, and — because the
click handler invokes `checkVictory`, which fires on `held ≥ 32` — shows
the victory screen immediately. -/
theorem claim9_single_pickup_victory :
    (getCellToken 0 0 (freshSess (0, 0)
        (fun n => if n = 0 then 0 else 3435973836))).1 = some 32 ∧
    (clickCell 0 0 (freshSess (0, 0)
        (fun n => if n = 0 then 0 else 3435973836))).held = some 32 ∧
    (clickCell 0 0 (freshSess (0, 0)
        (fun n => if n = 0 then 0 else 3435973836))).won = true ∧
    (clickCell 0 0 (freshSess (0, 0)
        (fun n => if n = 0 then 0 else 3435973836))).points = 0 + 1 := by
  have hread : getCellToken 0 0 (freshSess (0, 0)
      (fun n => if n = 0 then 0 else 3435973836)) =
      (some 32,
        { freshSess (0, 0) (fun n => if n = 0 then 0 else 3435973836) with
            modifiedCells := [(cellKey 0 0, some 32)], idx := 2 }) := by
    norm_num [getCellToken, freshSess, storeGet, storeSet, randomFast,
      TOKEN_SPAWN_PROBABILITY]
  have hin : canInteract 0 0 (freshSess (0, 0)
      (fun n => if n = 0 then 0 else 3435973836)) = true := by
    simp [canInteract, latLngToCell, INTERACT_RANGE, TILE_DEGREES, freshSess]
  have hclick : clickCell 0 0 (freshSess (0, 0)
      (fun n => if n = 0 then 0 else 3435973836)) =
      renderCell 0 0 (checkVictory (craftTransition 0 0 (some 32)
        { freshSess (0, 0) (fun n => if n = 0 then 0 else 3435973836) with
            modifiedCells := [(cellKey 0 0, some 32)], idx := 2 })) := by
    simp only [clickCell, hin, if_true, hread]
  rw [hclick]
  have hcraft : craftTransition 0 0 (some 32)
      ({ freshSess (0, 0) (fun n => if n = 0 then 0 else 3435973836) with
          modifiedCells := [(cellKey 0 0, some 32)], idx := 2 } : Sess) =
      { freshSess (0, 0) (fun n => if n = 0 then 0 else 3435973836) with
          modifiedCells := [(cellKey 0 0, none)], idx := 2,
          held := some 32, points := 0 + 1 } := by
    simp [craftTransition, freshSess, saveCell, storeSet]
  rw [hcraft]
  have hvic : checkVictory
      ({ freshSess (0, 0) (fun n => if n = 0 then 0 else 3435973836) with
          modifiedCells := [(cellKey 0 0, none)], idx := 2,
          held := some 32, points := 0 + 1 } : Sess) =
      { freshSess (0, 0) (fun n => if n = 0 then 0 else 3435973836) with
          modifiedCells := [(cellKey 0 0, none)], idx := 2,
          held := some 32, points := 0 + 1, won := true } := by
    simp [checkVictory, freshSess, TARGET_MAX_TOKEN]
  rw [hvic]
  refine ⟨by rw [hread], ?_, ?_, ?_⟩
  · exact ((getCellToken_core 0 0 _).2.2.2.1).trans rfl
  · exact ((getCellToken_core 0 0 _).2.2.2.2.2.1).trans rfl
  · exact ((getCellToken_core 0 0 _).2.2.1).trans rfl

/-! ### Store keys stay duplicate-free along the game -/

theorem nodup_renderCell (i j : ℤ) (s : Sess)
    (h : (s.modifiedCells.map Prod.fst).Nodup) :
    ((renderCell i j s).modifiedCells.map Prod.fst).Nodup :=
  nodup_getCellToken i j s h

theorem nodup_renderVisibleCells (s : Sess)
    (h : (s.modifiedCells.map Prod.fst).Nodup) :
    ((renderVisibleCells s).modifiedCells.map Prod.fst).Nodup :=
  renderVisibleCells_preserve (fun t => (t.modifiedCells.map Prod.fst).Nodup)
    (fun i j t ht => nodup_renderCell i j t ht) s h

theorem nodup_craftTransition (i j : ℤ) (nt : Option ℚ) (s : Sess)
    (h : (s.modifiedCells.map Prod.fst).Nodup) :
    ((craftTransition i j nt s).modifiedCells.map Prod.fst).Nodup := by
  simp only [craftTransition]
  split
  · split
    · exact nodup_storeSet _ _ _ h
    · exact h
  · split
    · exact nodup_storeSet _ _ _ h
    · split
      · exact nodup_storeSet _ _ _ h
      · exact h

theorem nodup_clickCell (i j : ℤ) (s : Sess)
    (h : (s.modifiedCells.map Prod.fst).Nodup) :
    ((clickCell i j s).modifiedCells.map Prod.fst).Nodup := by
  simp only [clickCell]
  split
  · refine nodup_renderCell i j _ ?_
    rw [(checkVictory_fields _).1]
    exact nodup_craftTransition _ _ _ _ (nodup_getCellToken i j s h)
  · exact h

theorem nodup_step : ∀ {s t : Sess}, Step s t →
    (s.modifiedCells.map Prod.fst).Nodup →
    (t.modifiedCells.map Prod.fst).Nodup
  | _, _, Step.move pos s, h => nodup_renderVisibleCells _ h
  | _, _, Step.click i j s, h => nodup_clickCell i j s h
  | _, _, Step.toggle s, h => h
  | _, _, Step.restart s, h => nodup_renderVisibleCells _ (by simp)

theorem reachable_nodup {s : Sess} (h : Reachable s) :
    (s.modifiedCells.map Prod.fst).Nodup := by
  induction h with
  | init pos bits => simp [freshSess]
  | step hs hstep ih => exact nodup_step hstep ih

/-! ### Round-trip of the persistence codec -/

theorem storeSet_of_not_has (m : CellStore) (k : String) (v : Option ℚ)
    (h : storeHas m k = false) : storeSet m k v = m ++ [(k, v)] := by
  induction m with
  | nil => rfl
  | cons p rest ih =>
      obtain ⟨k1, v1⟩ := p
      rw [storeHas_cons] at h
      by_cases h1 : k1 = k
      · simp [h1] at h
      · simp only [storeSet, if_neg h1, List.cons_append]
        rw [ih (by simpa [h1] using h)]

theorem storeHas_append (m1 m2 : CellStore) (k : String) :
    storeHas (m1 ++ m2) k = (storeHas m1 k || storeHas m2 k) := by
  induction m1 with
  | nil => simp [storeHas, storeGet]
  | cons p rest ih =>
      obtain ⟨k1, v1⟩ := p
      by_cases h : k1 = k <;>
        simp [storeHas_cons, List.cons_append, h, ih]

theorem loadCells_serialize (l : CellStore) :
    ∀ acc : CellStore, (l.map Prod.fst).Nodup →
      (∀ k, k ∈ l.map Prod.fst → storeHas acc k = false) →
      loadCells (l.map fun kv =>
        JVal.jarr [JVal.jstr kv.1, serializeTok kv.2]) acc =
        some (acc ++ l) := by
  induction l with
  | nil =>
      intro acc _ _
      simp [loadCells]
  | cons kv rest ih =>
      intro acc hnd hdis
      obtain ⟨k, v⟩ := kv
      have he : loadCellEntry acc (JVal.jarr [JVal.jstr k, serializeTok v]) =
          some (storeSet acc k v) := by
        cases v <;> rfl
      have hset : storeSet acc k v = acc ++ [(k, v)] :=
        storeSet_of_not_has acc k v (hdis k (by simp))
      have hnd' : (rest.map Prod.fst).Nodup := by
        simpa using hnd.of_cons
      have hdis' : ∀ k', k' ∈ rest.map Prod.fst →
          storeHas (acc ++ [(k, v)]) k' = false := by
        intro k' hk'
        have hkne : k' ≠ k := by
          intro he'
          subst he'
          exact (List.nodup_cons.mp (by simpa using hnd)).1 hk'
        rw [storeHas_append]
        have h1 : storeHas acc k' = false := hdis k' (by simp [hk'])
        have h2 : storeHas [(k, v)] k' = false := by
          rw [storeHas_cons]
          rw [if_neg (fun he' : k = k' => hkne he'.symm)]
          rfl
        rw [h1, h2]
        rfl
      simp only [List.map_cons, loadCells, he]
      rw [hset, ih (acc ++ [(k, v)]) hnd' hdis']
      simp

theorem loadLatLng_serialize (p : ℚ × ℚ) :
    loadLatLng (serializeLatLng p) = some p := rfl

/-- C5: deserializing the serialization of any reachable session state
succeeds and restores the origin, the player position, the score, the
held token, the modified-cell store (entry for entry, in insertion
order) and the movement-mode flag exactly as they were serialized —
for an empty store, a populated store, and a non-null held token alike,
since the statement quantifies over every reachable state. -/
theorem claim5_roundtrip (s prev : Sess) (h : Reachable s) :
    loadGameState prev (serializeState s) =
      some { prev with
          start := s.start, player := s.player, points := s.points,
          held := s.held, modifiedCells := s.modifiedCells,
          movementMode := s.movementMode } := by
  have hnd := reachable_nodup h
  have hcells : loadCells (s.modifiedCells.map fun kv =>
      JVal.jarr [JVal.jstr kv.1, serializeTok kv.2]) [] =
      some s.modifiedCells := by
    simpa using loadCells_serialize s.modifiedCells [] hnd (fun k _ => rfl)
  have ht : ∀ p : ℚ × ℚ, jTruthy (serializeLatLng p) = true := fun p => rfl
  have g1 : jGet (serializeState s) "PLAYER_START_LATLNG" =
      some (serializeLatLng s.start) := rfl
  have g2 : jGet (serializeState s) "playerLatLng" =
      some (serializeLatLng s.player) := rfl
  have g3 : jGet (serializeState s) "playerPoints" =
      some (JVal.jnum s.points) := rfl
  have g4 : jGet (serializeState s) "heldToken" =
      some (serializeTok s.held) := rfl
  have g5 : jGet (serializeState s) "modifiedCells" =
      some (serializeCells s.modifiedCells) := rfl
  have g6 : jGet (serializeState s) "movementMode" =
      some (serializeMode s.movementMode) := rfl
  have hst0 : serializeTok none = JVal.jnull := rfl
  have hst1 : ∀ v : ℚ, serializeTok (some v) = JVal.jnum v := fun _ => rfl
  cases hheld : s.held <;> cases hmode : s.movementMode <;>
    simp only [loadGameState, g1, g2, g3, g4, g5, g6, hheld, hmode, hst0,
      hst1, serializeMode, serializeCells, ht, if_true,
      loadLatLng_serialize, hcells] <;>
    simp

theorem claim5_witness :
    loadGameState (freshSess (0, 0) fun _ => 0)
        (serializeState (freshSess (0, 0) fun _ => 0)) =
      some { (freshSess (0, 0) fun _ => 0) with
          start := (freshSess (0, 0) fun _ => 0).start,
          player := (freshSess (0, 0) fun _ => 0).player,
          points := (freshSess (0, 0) fun _ => 0).points,
          held := (freshSess (0, 0) fun _ => 0).held,
          modifiedCells := (freshSess (0, 0) fun _ => 0).modifiedCells,
          movementMode := (freshSess (0, 0) fun _ => 0).movementMode } :=
  claim5_roundtrip _ _ (Reachable.init (0, 0) fun _ => 0)

/-! ### The power-of-two token invariant -/

theorem randomFast_nonneg (bits : ℕ → ℕ) (n : ℕ) : 0 ≤ randomFast bits n := by
  unfold randomFast
  positivity

theorem isTok_generated (q : ℚ) (hq : 0 ≤ q) :
    IsTok (2 ^ (1 + ⌊q * 5⌋)) := by
  have hf : 0 ≤ ⌊q * 5⌋ := Int.floor_nonneg.mpr (by positivity)
  refine ⟨(1 + ⌊q * 5⌋).toNat, by omega, ?_⟩
  rw [← zpow_natCast (2 : ℚ) (1 + ⌊q * 5⌋).toNat]
  congr 1
  omega

theorem isTok_double {v : ℚ} (h : IsTok v) : IsTok (v * 2) := by
  obtain ⟨n, hn, rfl⟩ := h
  exact ⟨n + 1, by omega, by ring⟩

theorem storeOk_set {m : CellStore}
    (hm : ∀ k v, storeGet m k = some (some v) → IsTok v)
    (k : String) {x : Option ℚ} (hx : ∀ v, x = some v → IsTok v) :
    ∀ k' v, storeGet (storeSet m k x) k' = some (some v) → IsTok v := by
  intro k' v hget
  rw [storeGet_set] at hget
  by_cases he : k' = k
  · rw [if_pos he] at hget
    exact hx v (Option.some.inj hget)
  · rw [if_neg he] at hget
    exact hm k' v hget

theorem sessOk_getCellToken (i j : ℤ) (s : Sess) (h : SessOk s) :
    SessOk (getCellToken i j s).2 ∧
      ∀ v, (getCellToken i j s).1 = some v → IsTok v := by
  cases hx : storeGet s.modifiedCells (cellKey i j) with
  | some x =>
      rw [getCellToken_decided hx]
      refine ⟨h, ?_⟩
      intro v hv
      subst hv
      exact h.2 (cellKey i j) v hx
  | none =>
      simp only [getCellToken, hx]
      split
      · have htok : IsTok (2 ^ (1 + ⌊randomFast s.bits (s.idx + 1) * 5⌋)) :=
          isTok_generated _ (randomFast_nonneg s.bits (s.idx + 1))
        refine ⟨⟨?_, ?_⟩, ?_⟩
        · intro v hv
          exact h.1 v hv
        · exact storeOk_set h.2 (cellKey i j)
            (fun v hv => by rw [Option.some.inj hv] at htok; exact htok)
        · intro v hv
          rw [← Option.some.inj hv]
          exact htok
      · refine ⟨⟨?_, ?_⟩, ?_⟩
        · intro v hv
          exact h.1 v hv
        · exact storeOk_set h.2 (cellKey i j)
            (fun v hv => Option.noConfusion hv)
        · intro v hv
          exact Option.noConfusion hv

theorem sessOk_renderCell (i j : ℤ) (s : Sess) (h : SessOk s) :
    SessOk (renderCell i j s) :=
  (sessOk_getCellToken i j s h).1

theorem sessOk_renderVisibleCells (s : Sess) (h : SessOk s) :
    SessOk (renderVisibleCells s) :=
  renderVisibleCells_preserve SessOk
    (fun i j t ht => sessOk_renderCell i j t ht) s h

theorem sessOk_craftTransition (i j : ℤ) (nt : Option ℚ) (s : Sess)
    (h : SessOk s) (hnt : ∀ v, nt = some v → IsTok v) :
    SessOk (craftTransition i j nt s) := by
  cases hh : s.held with
  | none =>
      cases nt with
      | none =>
          simp only [craftTransition, hh]
          exact h
      | some v =>
          simp only [craftTransition, hh]
          constructor
          · intro w hw
            rw [← Option.some.inj hw]
            exact hnt v rfl
          · exact storeOk_set h.2 (cellKey i j) fun w hw =>
              Option.noConfusion hw
  | some hv =>
      have hheld : IsTok hv := h.1 hv hh
      cases nt with
      | none =>
          simp only [craftTransition, hh]
          constructor
          · intro w hw
            exact Option.noConfusion hw
          · exact storeOk_set h.2 (cellKey i j) fun w hw => by
              rw [← Option.some.inj hw]
              exact hheld
      | some v =>
          by_cases hv2 : v = hv
          · simp only [craftTransition, hh, if_pos hv2]
            constructor
            · intro w hw
              rw [← Option.some.inj hw]
              exact isTok_double hheld
            · exact storeOk_set h.2 (cellKey i j) fun w hw =>
                Option.noConfusion hw
          · simp only [craftTransition, hh, if_neg hv2]
            exact h

theorem sessOk_checkVictory (s : Sess) (h : SessOk s) :
    SessOk (checkVictory s) := by
  have hf := checkVictory_fields s
  constructor
  · intro v hv
    rw [hf.2.1] at hv
    exact h.1 v hv
  · intro k v hv
    rw [hf.1] at hv
    exact h.2 k v hv

theorem sessOk_clickCell (i j : ℤ) (s : Sess) (h : SessOk s) :
    SessOk (clickCell i j s) := by
  simp only [clickCell]
  split
  · have h1 := sessOk_getCellToken i j s h
    exact sessOk_renderCell i j _
      (sessOk_checkVictory _ (sessOk_craftTransition i j _ _ h1.1 h1.2))
  · exact h

theorem sessOk_step : ∀ {s t : Sess}, Step s t → SessOk s → SessOk t
  | _, _, Step.move pos s, h => sessOk_renderVisibleCells _ h
  | _, _, Step.click i j s, h => sessOk_clickCell i j s h
  | _, _, Step.toggle s, h => h
  | _, _, Step.restart s, h =>
      sessOk_renderVisibleCells _
        ⟨fun v hv => Option.noConfusion hv,
         fun k v hv => Option.noConfusion hv⟩

/-- C10: in every state reachable from a fresh session (no restored
save), the held token and every non-null value stored in the cell store
is a power of two that is at least `2`: generation produces
`2 ^ (1 + ⌊r·5⌋)` with `⌊r·5⌋ ≥ 0`, pick-up and place move a value
unchanged between cell and hand, and craft doubles a power of two — so
every transition preserves the invariant. -/
theorem claim10_power_of_two_invariant (s : Sess) (h : Reachable s) :
    SessOk s := by
  induction h with
  | init pos bits =>
      exact ⟨fun v hv => Option.noConfusion hv,
        fun k v hv => Option.noConfusion hv⟩
  | step hs hstep ih => exact sessOk_step hstep ih

theorem claim10_witness : SessOk (freshSess (0, 0) fun _ => 0) :=
  claim10_power_of_two_invariant _ (Reachable.init (0, 0) fun _ => 0)
